import Mathlib

/-!
Verification of the Painterly add-on (`src/__init__.py`) against its
natural-language specification.  Each Python function relevant to a claim is
shallowly embedded as a Lean definition: Python floats become exact rationals
(or reals where `math.atan2` / `**` appear), Python strings become `List Char`,
Python ints become `Int`/`Nat`, and the host (Blender) objects a function
mutates become explicit state records.  Host-provided primitives that the
add-on merely calls (the RNG stream, PIL's FIND_EDGES output, bake results)
enter as parameters.
-/

namespace Painterly

/-! ## `compare_versions` (src/__init__.py lines 96-108)

`compare_versions` walks `zip(v1, v2)` returning -1/1 at the first differing
component (the `for` loop with early `return` is `compareLoop` over the zipped
list), then breaks ties by length. -/

/-- The `for a, b in zip(v1, v2)` loop of `compare_versions`: `some r` models an
early `return r`, `none` models falling through the loop. -/
def compareLoop : List (Int × Int) → Option Int
  | [] => none
  | (a, b) :: rest =>
    if a < b then some (-1)
    else if a > b then some 1
    else compareLoop rest

/-- `compare_versions(v1, v2)` from src/__init__.py lines 96-108: the loop's
early return if it fires, the length tiebreak otherwise. -/
def compare_versions (v1 v2 : List Int) : Int :=
  (compareLoop (v1.zip v2)).getD
    (if v1.length < v2.length then -1
     else if v1.length > v2.length then 1
     else 0)

theorem compare_versions_nil_nil : compare_versions [] [] = 0 := by decide

theorem compare_versions_nil_cons (b : Int) (bs : List Int) :
    compare_versions [] (b :: bs) = -1 := by
  simp [compare_versions, compareLoop]

theorem compare_versions_cons_nil (a : Int) (as : List Int) :
    compare_versions (a :: as) [] = 1 := by
  simp [compare_versions, compareLoop]

theorem compare_versions_cons_cons (a b : Int) (as bs : List Int) :
    compare_versions (a :: as) (b :: bs) =
      if a < b then -1 else if a > b then 1 else compare_versions as bs := by
  by_cases h1 : a < b
  · simp [compare_versions, compareLoop, h1]
  · by_cases h2 : a > b
    · simp [compare_versions, compareLoop, h1, h2]
    · simp [compare_versions, compareLoop, List.zip, h1, h2, Nat.succ_lt_succ_iff]

/-- C10: `compare_versions` implements lexicographic comparison with
shorter-tuple-is-smaller as the tiebreak: for all integer tuples it returns
-1, 0 or 1, it is antisymmetric (`compare_versions v1 v2 = -compare_versions
v2 v1`), and it returns 0 exactly on equal sequences. -/
theorem compare_versions_lex_order (v1 v2 : List Int) :
    (compare_versions v1 v2 = -1 ∨ compare_versions v1 v2 = 0 ∨
      compare_versions v1 v2 = 1) ∧
    compare_versions v1 v2 = -compare_versions v2 v1 ∧
    (compare_versions v1 v2 = 0 ↔ v1 = v2) := by
  induction v1 generalizing v2 with
  | nil =>
    cases v2 with
    | nil =>
      refine ⟨Or.inr (Or.inl compare_versions_nil_nil), ?_, ?_⟩
      · simp [compare_versions_nil_nil]
      · simp [compare_versions_nil_nil]
    | cons b bs =>
      refine ⟨Or.inl (compare_versions_nil_cons b bs), ?_, ?_⟩
      · simp [compare_versions_nil_cons, compare_versions_cons_nil]
      · simp [compare_versions_nil_cons]
  | cons a as ih =>
    cases v2 with
    | nil =>
      refine ⟨Or.inr (Or.inr (compare_versions_cons_nil a as)), ?_, ?_⟩
      · simp [compare_versions_nil_cons, compare_versions_cons_nil]
      · simp [compare_versions_cons_nil]
    | cons b bs =>
      rcases lt_trichotomy a b with hab | hab | hab
      · refine ⟨Or.inl ?_, ?_, ?_⟩
        · simp [compare_versions_cons_cons, hab]
        · simp [compare_versions_cons_cons, hab, not_lt.mpr (le_of_lt hab),
            ne_of_gt hab, lt_irrefl]
        · constructor
          · intro h
            simp [compare_versions_cons_cons, hab] at h
          · intro h
            injection h with h1 h2
            exact absurd h1 (ne_of_lt hab)
      · subst hab
        have e1 : compare_versions (a :: as) (a :: bs) = compare_versions as bs := by
          simp [compare_versions_cons_cons, lt_irrefl]
        have e2 : compare_versions (a :: bs) (a :: as) = compare_versions bs as := by
          simp [compare_versions_cons_cons, lt_irrefl]
        obtain ⟨hrange, hneg, hzero⟩ := ih bs
        refine ⟨by rw [e1]; exact hrange, by rw [e1, e2]; exact hneg, ?_⟩
        rw [e1]
        constructor
        · intro h
          rw [(hzero.mp h)]
        · intro h
          injection h with h1 h2
          exact hzero.mpr h2
      · refine ⟨Or.inr (Or.inr ?_), ?_, ?_⟩
        · simp [compare_versions_cons_cons, hab, not_lt.mpr (le_of_lt hab)]
        · simp [compare_versions_cons_cons, hab, not_lt.mpr (le_of_lt hab), lt_irrefl]
        · constructor
          · intro h
            simp [compare_versions_cons_cons, hab, not_lt.mpr (le_of_lt hab)] at h
          · intro h
            injection h with h1 h2
            exact absurd h1 (ne_of_gt hab)

/-! ## Frame-cycling driver arithmetic (C3)

`update_step_drivers` (lines 1882-1925) writes the driver expression
`int(((frame - 1) / max(step, 1))) % max(fc, 1) + 1 == index` on every
frame-cycling mix-shader input, with variables `frame`, `step`, `fc` wired to
the scene's current frame, the scene's `stroke_brush_properties.step_value`
and the material's `"frame_count"` custom property.  `update_color`
(lines 690-707) computes `active_index = (int(((frame - 1) / step)) % fc) + 1`.
For `frame ≥ 1` Python's `int(x / y)` on these nonnegative quantities is
natural-number floor division. -/

/-- The driver expression string written by `update_step_drivers` for mix
shader `index` (src/__init__.py line 1900). -/
def driverExpression (index : Nat) : String :=
  "int(((frame - 1) / max(step, 1))) % max(fc, 1) + 1 == " ++ toString index

/-- Value of the driver expression `int(((frame - 1) / max(step, 1))) %
max(fc, 1) + 1 == index` at given variable values. -/
def driverExprValue (frame step fc index : Nat) : Bool :=
  decide ((frame - 1) / max step 1 % max fc 1 + 1 = index)

/-- `active_index` as computed by `update_color` (src/__init__.py line 697):
`(int(((frame - 1) / step)) % fc) + 1`. -/
def activeIndex (frame step fc : Nat) : Nat :=
  (frame - 1) / step % fc + 1

/-- C3: for `frame ≥ 1`, `step ≥ 1`, `fc ≥ 1` the driver expression configured
by `update_step_drivers` is true for exactly one index, that index lies in
`1..fc`, and it equals the `active_index` computed by `update_color`. -/
theorem driver_selects_active_index (frame step fc : Nat)
    (hf : 1 ≤ frame) (hs : 1 ≤ step) (hc : 1 ≤ fc) :
    (∀ index, driverExprValue frame step fc index = true ↔
      index = activeIndex frame step fc) ∧
    1 ≤ activeIndex frame step fc ∧ activeIndex frame step fc ≤ fc := by
  have hstep : max step 1 = step := max_eq_left hs
  have hfc : max fc 1 = fc := max_eq_left hc
  refine ⟨?_, ?_, ?_⟩
  · intro index
    simp only [driverExprValue, hstep, hfc, decide_eq_true_eq, activeIndex]
    exact eq_comm
  · exact Nat.le_add_left 1 _
  · have : (frame - 1) / step % fc < fc := Nat.mod_lt _ (lt_of_lt_of_le Nat.zero_lt_one hc)
    exact Nat.succ_le_of_lt this

/-- Witness for C3 at frame 5, step 2, frame count 3: the selected index is
`active_index = (int(4 / 2) % 3) + 1 = 3`. -/
theorem driver_selects_active_index_witness :
    1 ≤ 5 ∧ 1 ≤ 2 ∧ 1 ≤ 3 ∧
    ((∀ index, driverExprValue 5 2 3 index = true ↔ index = activeIndex 5 2 3) ∧
      1 ≤ activeIndex 5 2 3 ∧ activeIndex 5 2 3 ≤ 3) :=
  ⟨by decide, by decide, by decide,
    driver_selects_active_index 5 2 3 (by decide) (by decide) (by decide)⟩

/-! ## `_repair_painterly_drivers_after_update` (C4)

The repair (src/__init__.py lines 125-183) rewrites each driver expression
string in two sequential steps:

* if `"/ step" in expr and "max(step, 1)" not in expr`, replace every
  `"/ step"` by `"/ max(step, 1)"`;
* if `"% fc" in expr and "max(fc, 1)" not in expr`, replace every `"% fc"`
  by `"% max(fc, 1)"`.

Python strings are embedded as `List Char`; Python's `in` is `<:+:`
(substring) and `str.replace` is the left-to-right non-overlapping scan
`replaceAll` below. -/

/-- The pattern `"/ step"`. -/
def pStep : List Char := ['/', ' ', 's', 't', 'e', 'p']

/-- The guard text `"max(step, 1)"`. -/
def pMaxStep : List Char := ['m', 'a', 'x', '(', 's', 't', 'e', 'p', ',', ' ', '1', ')']

/-- The replacement `"/ max(step, 1)"`. -/
def rStep : List Char := '/' :: ' ' :: pMaxStep

/-- The pattern `"% fc"`. -/
def pFc : List Char := ['%', ' ', 'f', 'c']

/-- The guard text `"max(fc, 1)"`. -/
def pMaxFc : List Char := ['m', 'a', 'x', '(', 'f', 'c', ',', ' ', '1', ')']

/-- The replacement `"% max(fc, 1)"`. -/
def rFc : List Char := '%' :: ' ' :: pMaxFc

/-- Python `s.replace(pat, repl)`: scan `s` left to right and replace each
non-overlapping occurrence of `pat` by `repl`.  `fuel` bounds the recursion
structurally so the definition stays kernel-computable; every caller passes
`s.length`, which is always enough fuel. -/
def replaceAllF (pat repl : List Char) : Nat → List Char → List Char
  | _, [] => []
  | 0, s => s
  | fuel + 1, c :: rest =>
    if pat ≠ [] ∧ pat <+: (c :: rest) then
      repl ++ replaceAllF pat repl fuel (rest.drop (pat.length - 1))
    else
      c :: replaceAllF pat repl fuel rest

/-- Python `s.replace(pat, repl)`. -/
def replaceAll (pat repl s : List Char) : List Char :=
  replaceAllF pat repl s.length s

theorem replaceAllF_nil (pat repl : List Char) (fuel : Nat) :
    replaceAllF pat repl fuel [] = [] := by
  cases fuel <;> rfl

theorem replaceAllF_succ_cons (pat repl : List Char) (f : Nat) (c : Char)
    (rest : List Char) :
    replaceAllF pat repl (f + 1) (c :: rest) =
      if pat ≠ [] ∧ pat <+: (c :: rest) then
        repl ++ replaceAllF pat repl f (rest.drop (pat.length - 1))
      else
        c :: replaceAllF pat repl f rest := rfl

/-- An occurrence of `t` inside `a ++ b` is inside `a`, inside `b`, or
straddles the boundary: a nonempty suffix of `a` followed by a nonempty
part of `b`. -/
theorem infix_append_split {α : Type} {t a b : List α} (h : t <:+: a ++ b) :
    t <:+: a ∨ t <:+: b ∨
      ∃ p q, t = p ++ q ∧ p ≠ [] ∧ q ≠ [] ∧ p <:+ a ∧ q <+: b := by
  induction a generalizing t with
  | nil => exact Or.inr (Or.inl (by simpa using h))
  | cons x a' ih =>
    rcases List.infix_cons_iff.mp (by simpa using h) with hp | hi
    · by_cases hlen : t.length ≤ (x :: a').length
      · exact Or.inl ((List.isPrefix_append_of_length hlen).mp hp).isInfix
      · have hA : (x :: a') <+: t :=
          List.prefix_of_prefix_length_le (List.prefix_append _ _) hp
            (le_of_not_le hlen)
        obtain ⟨t₂, ht₂⟩ := hA
        have hq : t₂ <+: b := by
          rw [← ht₂] at hp
          exact (List.prefix_append_right_inj (x :: a')).mp hp
        cases t₂ with
        | nil =>
          left
          rw [← ht₂, List.append_nil]
        | cons y t' =>
          refine Or.inr (Or.inr ⟨x :: a', y :: t', ht₂.symm, ?_, ?_, ?_, hq⟩)
          · simp
          · simp
          · exact List.suffix_rfl
    · rcases ih hi with h1 | h2 | ⟨p, q, hpq, hpne, hqne, hpsuf, hqpre⟩
      · exact Or.inl (List.infix_cons h1)
      · exact Or.inr (Or.inl h2)
      · exact Or.inr (Or.inr ⟨p, q, hpq, hpne, hqne,
          hpsuf.trans (List.suffix_cons x a'), hqpre⟩)

/-- An occurrence inside the right part of an append is an occurrence in the
whole. -/
theorem infix_append_left {α : Type} {t a b : List α} (h : t <:+: b) :
    t <:+: a ++ b := by
  obtain ⟨u, v, huv⟩ := h
  exact ⟨a ++ u, v, by rw [← huv]; simp [List.append_assoc]⟩

/-- Tail-part stability: when no nonempty proper suffix of `t` is a prefix of
`repl` (and `t` is at most one longer than `repl`), a proper suffix of `t`
that prefixes the replaced string already prefixed the input. -/
theorem replaceAllF_drop_pre (pat repl t : List Char)
    (hSuf : ∀ i, i < t.length → 0 < i → ¬ (t.drop i <+: repl))
    (hL : t.length ≤ repl.length + 1) :
    ∀ fuel s, s.length ≤ fuel → ∀ i, i < t.length → 0 < i →
      t.drop i <+: replaceAllF pat repl fuel s → t.drop i <+: s := by
  intro fuel
  induction fuel with
  | zero =>
    intro s hs i hi h0 hp
    have hnil : s = [] := List.length_eq_zero.mp (Nat.le_zero.mp hs)
    subst hnil
    simpa [replaceAllF_nil] using hp
  | succ f ih =>
    intro s hs i hi h0 hp
    cases s with
    | nil => simpa [replaceAllF_nil] using hp
    | cons c rest =>
      have hs' : rest.length ≤ f := by simpa using hs
      rw [replaceAllF_succ_cons] at hp
      by_cases hm : pat ≠ [] ∧ pat <+: (c :: rest)
      · rw [if_pos hm] at hp
        have hlen : (t.drop i).length ≤ repl.length := by
          rw [List.length_drop]; omega
        exact absurd ((List.isPrefix_append_of_length hlen).mp hp) (hSuf i hi h0)
      · rw [if_neg hm] at hp
        have hne : t.drop i ≠ [] := by
          intro hx
          rw [List.drop_eq_nil_iff] at hx
          omega
        obtain ⟨d, q', hdq⟩ := List.exists_cons_of_ne_nil hne
        rw [hdq, List.cons_prefix_cons] at hp
        obtain ⟨hdc, hq'⟩ := hp
        have hq'd : q' = t.drop (i + 1) := by
          have hdd : t.drop (i + 1) = (t.drop i).drop 1 := by
            rw [List.drop_drop]
          rw [hdd, hdq, List.drop_succ_cons, List.drop_zero]
        by_cases hlast : i + 1 < t.length
        · have hrec := ih rest hs' (i + 1) hlast (by omega) (hq'd ▸ hq')
          rw [hdq, List.cons_prefix_cons]
          exact ⟨hdc, hq'd ▸ hrec⟩
        · have hqnil : q' = [] := by
            rw [hq'd, List.drop_eq_nil_iff]
            omega
          rw [hdq, hqnil, List.cons_prefix_cons]
          exact ⟨hdc, List.nil_prefix⟩

/-- After replacing every occurrence of `pat` by `repl`, no occurrence of
`pat` remains, provided `pat` does not occur in `repl`, no nonempty proper
prefix of `pat` is a suffix of `repl`, and no nonempty proper suffix of `pat`
is a prefix of `repl`. -/
theorem replaceAllF_no_pat (pat repl : List Char) (h2 : 2 ≤ pat.length)
    (hNo : ¬ pat <:+: repl)
    (hPre : ∀ i, i < pat.length → 0 < i → ¬ (pat.take i <:+ repl))
    (hSuf : ∀ i, i < pat.length → 0 < i → ¬ (pat.drop i <+: repl))
    (hL : pat.length ≤ repl.length + 1) :
    ∀ fuel s, s.length ≤ fuel → ¬ pat <:+: replaceAllF pat repl fuel s := by
  intro fuel
  induction fuel with
  | zero =>
    intro s hs hinf
    have hnil : s = [] := List.length_eq_zero.mp (Nat.le_zero.mp hs)
    subst hnil
    rw [replaceAllF_nil] at hinf
    have : pat = [] := by simpa using hinf
    simp [this] at h2
  | succ f ih =>
    intro s hs hinf
    cases s with
    | nil =>
      rw [replaceAllF_nil] at hinf
      have : pat = [] := by simpa using hinf
      simp [this] at h2
    | cons c rest =>
      have hs' : rest.length ≤ f := by simpa using hs
      rw [replaceAllF_succ_cons] at hinf
      by_cases hm : pat ≠ [] ∧ pat <+: (c :: rest)
      · rw [if_pos hm] at hinf
        rcases infix_append_split hinf with h1 | h1 | ⟨p, q, hpq, hpne, hqne, hpsuf, hqpre⟩
        · exact hNo h1
        · refine ih _ ?_ h1
          rw [List.length_drop]
          omega
        · have hplen : pat.length = p.length + q.length := by
            rw [hpq, List.length_append]
          have hp0 : 0 < p.length := List.length_pos.mpr hpne
          have hq0 : 0 < q.length := List.length_pos.mpr hqne
          have htake : pat.take p.length = p := by
            rw [hpq, List.take_left]
          exact hPre p.length (by omega) hp0 (by rw [htake]; exact hpsuf)
      · rw [if_neg hm] at hinf
        rcases List.infix_cons_iff.mp hinf with hp | hi
        · cases hpat : pat with
          | nil => simp [hpat] at h2
          | cons p0 ptail =>
            rw [hpat, List.cons_prefix_cons] at hp
            obtain ⟨hp0c, hptail⟩ := hp
            have hpt : pat.drop 1 = ptail := by rw [hpat]; rfl
            have harg : pat.drop 1 <+: replaceAllF pat repl f rest := by
              rw [hpt, hpat]
              exact hptail
            have hptl : ptail <+: rest := by
              have h := replaceAllF_drop_pre pat repl pat hSuf hL f rest hs' 1
                (by omega) one_pos harg
              rw [hpt] at h
              exact h
            refine hm ⟨by simp [hpat], ?_⟩
            rw [hpat, List.cons_prefix_cons]
            exact ⟨hp0c, hptl⟩
        · exact ih rest hs' hi

/-- Replacing occurrences of `pat` cannot create an occurrence of a different
string `t` when `t` does not occur in `repl`, no nonempty proper prefix of `t`
is a suffix of `repl`, and no nonempty proper suffix of `t` is a prefix of
`repl`. -/
theorem replaceAllF_preserve_not (pat repl t : List Char) (h2 : 2 ≤ t.length)
    (hNo : ¬ t <:+: repl)
    (hPre : ∀ i, i < t.length → 0 < i → ¬ (t.take i <:+ repl))
    (hSuf : ∀ i, i < t.length → 0 < i → ¬ (t.drop i <+: repl))
    (hL : t.length ≤ repl.length + 1) :
    ∀ fuel s, s.length ≤ fuel → ¬ t <:+: s → ¬ t <:+: replaceAllF pat repl fuel s := by
  intro fuel
  induction fuel with
  | zero =>
    intro s hs hns hinf
    have hnil : s = [] := List.length_eq_zero.mp (Nat.le_zero.mp hs)
    subst hnil
    rw [replaceAllF_nil] at hinf
    exact hns hinf
  | succ f ih =>
    intro s hs hns hinf
    cases s with
    | nil =>
      rw [replaceAllF_nil] at hinf
      exact hns hinf
    | cons c rest =>
      have hs' : rest.length ≤ f := by simpa using hs
      rw [replaceAllF_succ_cons] at hinf
      by_cases hm : pat ≠ [] ∧ pat <+: (c :: rest)
      · rw [if_pos hm] at hinf
        rcases infix_append_split hinf with h1 | h1 | ⟨p, q, hpq, hpne, hqne, hpsuf, hqpre⟩
        · exact hNo h1
        · refine ih _ ?_ ?_ h1
          · rw [List.length_drop]; omega
          · intro hx
            exact hns (List.infix_cons
              (hx.trans (List.drop_suffix _ rest).isInfix))
        · have hplen : t.length = p.length + q.length := by
            rw [hpq, List.length_append]
          have hp0 : 0 < p.length := List.length_pos.mpr hpne
          have hq0 : 0 < q.length := List.length_pos.mpr hqne
          have htake : t.take p.length = p := by rw [hpq, List.take_left]
          exact hPre p.length (by omega) hp0 (by rw [htake]; exact hpsuf)
      · rw [if_neg hm] at hinf
        rcases List.infix_cons_iff.mp hinf with hp | hi
        · cases hpat : t with
          | nil => simp [hpat] at h2
          | cons t0 ttail =>
            rw [hpat, List.cons_prefix_cons] at hp
            obtain ⟨ht0c, httail⟩ := hp
            have hpt : t.drop 1 = ttail := by rw [hpat]; rfl
            have harg : t.drop 1 <+: replaceAllF pat repl f rest := by
              rw [hpt]
              exact httail
            have httl : ttail <+: rest := by
              have h := replaceAllF_drop_pre pat repl t hSuf hL f rest hs' 1
                (by omega) one_pos harg
              rw [hpt] at h
              exact h
            refine hns ?_
            refine List.IsPrefix.isInfix ?_
            rw [hpat, List.cons_prefix_cons]
            exact ⟨ht0c, httl⟩
        · exact ih rest hs' (fun hx => hns (List.infix_cons hx)) hi

/-- A prefix made only of characters that can never start `pat` survives
replacement untouched. -/
theorem replaceAllF_stable_head (pat repl : List Char) :
    ∀ q : List Char, (∀ c ∈ q, pat.head? ≠ some c) →
      ∀ fuel s, s.length ≤ fuel → q <+: s → q <+: replaceAllF pat repl fuel s := by
  intro q
  induction q with
  | nil => intro _ fuel s _ _; exact List.nil_prefix
  | cons d q' ihq =>
    intro hq fuel s hs hpre
    cases s with
    | nil => simp at hpre
    | cons e rest =>
      rw [List.cons_prefix_cons] at hpre
      obtain ⟨hde, hq'⟩ := hpre
      subst hde
      cases fuel with
      | zero => simp at hs
      | succ f =>
        have hs' : rest.length ≤ f := by simpa using hs
        rw [replaceAllF_succ_cons]
        have hcond : ¬ (pat ≠ [] ∧ pat <+: (d :: rest)) := by
          rintro ⟨hne, hp⟩
          cases hpc : pat with
          | nil => exact hne hpc
          | cons p0 pt =>
            rw [hpc, List.cons_prefix_cons] at hp
            refine hq d (by simp) ?_
            rw [hpc, List.head?_cons, hp.1]
        rw [if_neg hcond, List.cons_prefix_cons]
        exact ⟨rfl, ihq (fun c hc => hq c (by simp [hc])) f rest hs' hq'⟩

/-- Replacing occurrences of `pat` preserves an existing occurrence of `t`
when `t` cannot overlap any occurrence of `pat`: `t` does not occur in `pat`,
no nonempty proper prefix of `t` is a suffix of `pat`, and `pat` cannot start
at any character of `t`'s tail. -/
theorem replaceAllF_preserve_occ (pat repl t : List Char)
    (hTP : ¬ t <:+: pat)
    (hPre : ∀ i, i < t.length → 0 < i → ¬ (t.take i <:+ pat))
    (hHead : ∀ c ∈ t.drop 1, pat.head? ≠ some c) :
    ∀ fuel s, s.length ≤ fuel → t <:+: s → t <:+: replaceAllF pat repl fuel s := by
  intro fuel
  induction fuel with
  | zero =>
    intro s hs hinf
    have hnil : s = [] := List.length_eq_zero.mp (Nat.le_zero.mp hs)
    subst hnil
    rw [replaceAllF_nil]
    exact hinf
  | succ f ih =>
    intro s hs hinf
    cases s with
    | nil =>
      rw [replaceAllF_nil]
      exact hinf
    | cons c rest =>
      have hs' : rest.length ≤ f := by simpa using hs
      rw [replaceAllF_succ_cons]
      by_cases hm : pat ≠ [] ∧ pat <+: (c :: rest)
      · rw [if_pos hm]
        obtain ⟨s', hs'eq⟩ := hm.2
        have hpl : 0 < pat.length := List.length_pos.mpr hm.1
        have hdrop : s' = rest.drop (pat.length - 1) := by
          have h1 : s' = (c :: rest).drop pat.length := by
            rw [← hs'eq, List.drop_left]
          obtain ⟨m, hmm⟩ : ∃ m, pat.length = m + 1 := ⟨pat.length - 1, by omega⟩
          rw [h1, hmm, List.drop_succ_cons]
          simp
        have hinf' : t <:+: pat ++ s' := by rw [hs'eq]; exact hinf
        rcases infix_append_split hinf' with h1 | h1 | ⟨p, q, hpq, hpne, hqne, hpsuf, hqpre⟩
        · exact absurd h1 hTP
        · refine infix_append_left (ih (rest.drop (pat.length - 1)) ?_ (hdrop ▸ h1))
          rw [List.length_drop]
          omega
        · have hplen : t.length = p.length + q.length := by
            rw [hpq, List.length_append]
          have hp0 : 0 < p.length := List.length_pos.mpr hpne
          have hq0 : 0 < q.length := List.length_pos.mpr hqne
          have htake : t.take p.length = p := by rw [hpq, List.take_left]
          exact absurd (show t.take p.length <:+ pat by rw [htake]; exact hpsuf)
            (hPre p.length (by omega) hp0)
      · rw [if_neg hm]
        rcases List.infix_cons_iff.mp hinf with hp | hi
        · cases hpat : t with
          | nil => exact List.nil_infix
          | cons t0 ttail =>
            rw [hpat, List.cons_prefix_cons] at hp
            obtain ⟨ht0, httail⟩ := hp
            have hstable := replaceAllF_stable_head pat repl ttail
              (fun ch hch => hHead ch (by simp [hpat, hch])) f rest hs' httail
            refine List.IsPrefix.isInfix ?_
            rw [List.cons_prefix_cons]
            exact ⟨ht0, hstable⟩
        · exact List.infix_cons (ih rest hs' hi)

/-- First repair step (src/__init__.py lines 150-151): harden `"/ step"`. -/
def repairStage1 (e : List Char) : List Char :=
  if pStep <:+: e ∧ ¬ pMaxStep <:+: e then replaceAll pStep rStep e else e

/-- Second repair step (src/__init__.py lines 154-155): harden `"% fc"`. -/
def repairStage2 (e : List Char) : List Char :=
  if pFc <:+: e ∧ ¬ pMaxFc <:+: e then replaceAll pFc rFc e else e

/-- The full per-expression rewrite of `_repair_painterly_drivers_after_update`
(src/__init__.py lines 146-155). -/
def repairExpr (e : List Char) : List Char :=
  repairStage2 (repairStage1 e)

theorem no_pStep_after_replace (s : List Char) :
    ¬ pStep <:+: replaceAll pStep rStep s :=
  replaceAllF_no_pat pStep rStep (by decide) (by decide) (by decide) (by decide)
    (by decide) s.length s le_rfl

theorem no_pFc_after_replace (s : List Char) :
    ¬ pFc <:+: replaceAll pFc rFc s :=
  replaceAllF_no_pat pFc rFc (by decide) (by decide) (by decide) (by decide)
    (by decide) s.length s le_rfl

theorem fc_replace_keeps_no_pStep (s : List Char) (h : ¬ pStep <:+: s) :
    ¬ pStep <:+: replaceAll pFc rFc s :=
  replaceAllF_preserve_not pFc rFc pStep (by decide) (by decide) (by decide)
    (by decide) (by decide) s.length s le_rfl h

theorem step_replace_keeps_no_pMaxFc (s : List Char) (h : ¬ pMaxFc <:+: s) :
    ¬ pMaxFc <:+: replaceAll pStep rStep s :=
  replaceAllF_preserve_not pStep rStep pMaxFc (by decide) (by decide) (by decide)
    (by decide) (by decide) s.length s le_rfl h

theorem fc_replace_keeps_pMaxStep (s : List Char) (h : pMaxStep <:+: s) :
    pMaxStep <:+: replaceAll pFc rFc s :=
  replaceAllF_preserve_occ pFc rFc pMaxStep (by decide) (by decide) (by decide)
    s.length s le_rfl h

theorem stage2_keeps_no_pStep (s : List Char) (h : ¬ pStep <:+: s) :
    ¬ pStep <:+: repairStage2 s := by
  unfold repairStage2
  by_cases hc : pFc <:+: s ∧ ¬ pMaxFc <:+: s
  · rw [if_pos hc]
    exact fc_replace_keeps_no_pStep s h
  · rw [if_neg hc]
    exact h

theorem stage2_keeps_pMaxStep (s : List Char) (h : pMaxStep <:+: s) :
    pMaxStep <:+: repairStage2 s := by
  unfold repairStage2
  by_cases hc : pFc <:+: s ∧ ¬ pMaxFc <:+: s
  · rw [if_pos hc]
    exact fc_replace_keeps_pMaxStep s h
  · rw [if_neg hc]
    exact h

theorem stage1_keeps_no_pMaxFc (s : List Char) (h : ¬ pMaxFc <:+: s) :
    ¬ pMaxFc <:+: repairStage1 s := by
  unfold repairStage1
  by_cases hc : pStep <:+: s ∧ ¬ pMaxStep <:+: s
  · rw [if_pos hc]
    exact step_replace_keeps_no_pMaxFc s h
  · rw [if_neg hc]
    exact h

theorem stage1_no_pStep (e : List Char) (h : ¬ pMaxStep <:+: e) :
    ¬ pStep <:+: repairStage1 e := by
  unfold repairStage1
  by_cases hf : pStep <:+: e ∧ ¬ pMaxStep <:+: e
  · rw [if_pos hf]
    exact no_pStep_after_replace e
  · rw [if_neg hf]
    intro hstep
    exact h (by tauto)

theorem stage2_no_pFc (e : List Char) (h : ¬ pMaxFc <:+: e) :
    ¬ pFc <:+: repairStage2 e := by
  unfold repairStage2
  by_cases hf : pFc <:+: e ∧ ¬ pMaxFc <:+: e
  · rw [if_pos hf]
    exact no_pFc_after_replace e
  · rw [if_neg hf]
    intro hfc
    exact h (by tauto)

/-- C4 (amended): for an expression that does not already contain the guard
text `"max(step, 1)"` the repair leaves no `"/ step"` substring (likewise
`"max(fc, 1)"` / `"% fc"`), and the repair is idempotent on every
expression. -/
theorem repairExpr_hardens (e : List Char) :
    (¬ pMaxStep <:+: e → ¬ pStep <:+: repairExpr e) ∧
    (¬ pMaxFc <:+: e → ¬ pFc <:+: repairExpr e) ∧
    repairExpr (repairExpr e) = repairExpr e := by
  refine ⟨?_, ?_, ?_⟩
  · intro h
    exact stage2_keeps_no_pStep _ (stage1_no_pStep e h)
  · intro h
    exact stage2_no_pFc _ (stage1_keeps_no_pMaxFc e h)
  · have hstep : ¬ pStep <:+: repairExpr e ∨ pMaxStep <:+: repairExpr e := by
      by_cases hf : pStep <:+: e ∧ ¬ pMaxStep <:+: e
      · left
        unfold repairExpr
        refine stage2_keeps_no_pStep _ ?_
        unfold repairStage1
        rw [if_pos hf]
        exact no_pStep_after_replace e
      · by_cases hA : pStep <:+: e
        · right
          have hB : pMaxStep <:+: e := by tauto
          unfold repairExpr
          refine stage2_keeps_pMaxStep _ ?_
          unfold repairStage1
          rw [if_neg hf]
          exact hB
        · left
          unfold repairExpr
          refine stage2_keeps_no_pStep _ ?_
          unfold repairStage1
          rw [if_neg hf]
          exact hA
    have hfc : ¬ pFc <:+: repairExpr e ∨ pMaxFc <:+: repairExpr e := by
      by_cases hf : pFc <:+: repairStage1 e ∧ ¬ pMaxFc <:+: repairStage1 e
      · left
        unfold repairExpr repairStage2
        rw [if_pos hf]
        exact no_pFc_after_replace _
      · have hr : repairExpr e = repairStage1 e := by
          unfold repairExpr repairStage2
          rw [if_neg hf]
        rw [hr]
        tauto
    have h1 : repairStage1 (repairExpr e) = repairExpr e := by
      unfold repairStage1
      rw [if_neg]
      tauto
    show repairStage2 (repairStage1 (repairExpr e)) = repairExpr e
    rw [h1]
    unfold repairStage2
    rw [if_neg]
    tauto

/-- C4 counterexample: the expression `"x / step + max(step, 1)"` already
mentions the guard text, so the repair's containment check skips it and the
unguarded `"/ step"` survives: after the repair the expression still contains
`"/ step"` and contains no `"/ max(step, 1)"`. -/
def ceC4 : List Char :=
  ['x', ' ', '/', ' ', 's', 't', 'e', 'p', ' ', '+', ' ',
   'm', 'a', 'x', '(', 's', 't', 'e', 'p', ',', ' ', '1', ')']

/-- The repaired `ceC4` still holds an unguarded `"/ step"`, refuting the
claim as stated. -/
theorem repairExpr_unguarded_counterexample :
    pStep <:+: repairExpr ceC4 ∧ ¬ rStep <:+: repairExpr ceC4 ∧
      repairExpr ceC4 = ceC4 := by decide

/-- Witness for the amended C4 at the legacy driver expression
`"int(((frame - 1) / step)) % fc + 1 == 2"`. -/
def wExprC4 : List Char :=
  ['i', 'n', 't', '(', '(', '(', 'f', 'r', 'a', 'm', 'e', ' ', '-', ' ', '1',
   ')', ' ', '/', ' ', 's', 't', 'e', 'p', ')', ')', ' ', '%', ' ', 'f', 'c',
   ' ', '+', ' ', '1', ' ', '=', '=', ' ', '2']

theorem repairExpr_hardens_witness :
    (¬ pMaxStep <:+: wExprC4) ∧ (¬ pMaxFc <:+: wExprC4) ∧
    (¬ pStep <:+: repairExpr wExprC4) ∧ (¬ pFc <:+: repairExpr wExprC4) ∧
    repairExpr (repairExpr wExprC4) = repairExpr wExprC4 :=
  ⟨by decide, by decide,
    (repairExpr_hardens wExprC4).1 (by decide),
    (repairExpr_hardens wExprC4).2.1 (by decide),
    (repairExpr_hardens wExprC4).2.2⟩

/-! ## Stroke geometry of `generate_stroke_tasks` (C1, C2, C8)

`PainterlyEffectOperator.generate_stroke_tasks` (src/__init__.py lines
3612-3708).  Float arithmetic is embedded exactly: rationals where only
field operations occur, reals where `math.atan2` and `math.degrees` appear.
The Python `random` module is a seeded global state machine; it is embedded
as an abstract implementation record `RNGImpl` whose state is threaded
explicitly, so `random.seed(props.random_seed)` is the state-discarding call
at the top of `generate_stroke_tasks`. -/

/-- Non-boosted stroke width (src/__init__.py lines 3670-3675):
`edge_strength` is the FIND_EDGES byte divided by 255. -/
def strokeWidthNB (stroke_width average_stroke_size dynamic_strokes
    edge_strength : ℚ) : ℚ :=
  let open_space_factor := 1 - edge_strength
  let base_width := stroke_width * average_stroke_size
  let edge_scale_modifier := open_space_factor * 0.9 + 0.1
  let size_modifier := 1 - (1 - edge_scale_modifier) * dynamic_strokes
  base_width * size_modifier

/-- Non-boosted stroke length (src/__init__.py lines 3676-3677). -/
def strokeLengthNB (stroke_width average_stroke_size dynamic_strokes
    edge_strength : ℚ) : ℚ :=
  let final_width := strokeWidthNB stroke_width average_stroke_size
    dynamic_strokes edge_strength
  let open_space_factor := 1 - edge_strength
  let elongation_factor := 1 + open_space_factor * 2.0 * dynamic_strokes
  final_width * elongation_factor

theorem strokeWidthNB_eq (sw avg d e : ℚ) :
    strokeWidthNB sw avg d e = (sw * avg) * (1 - (1 - ((1 - e) * 0.9 + 0.1)) * d) :=
  rfl

theorem strokeLengthNB_eq (sw avg d e : ℚ) :
    strokeLengthNB sw avg d e = strokeWidthNB sw avg d e * (1 + (1 - e) * 2.0 * d) :=
  rfl

/-- C1: in the non-boosted branch the width and length follow the claimed
formulas, and (within the declared property ranges `0 < dynamic_strokes ≤ 1`,
`stroke_width ≥ 0`, `average_stroke_size ≥ 0`, edge strength in `[0, 1]`) both
are monotonically non-increasing in the edge strength. -/
theorem stroke_size_monotone_in_edges (sw avg d e₁ e₂ : ℚ)
    (hsw : 0 ≤ sw) (havg : 0 ≤ avg) (hd0 : 0 < d) (hd1 : d ≤ 1)
    (he1 : 0 ≤ e₁) (h12 : e₁ ≤ e₂) (he2 : e₂ ≤ 1) :
    strokeWidthNB sw avg d e₁ = (sw * avg) * (1 - (1 - ((1 - e₁) * 0.9 + 0.1)) * d) ∧
    strokeLengthNB sw avg d e₁ = strokeWidthNB sw avg d e₁ * (1 + (1 - e₁) * 2.0 * d) ∧
    strokeWidthNB sw avg d e₂ ≤ strokeWidthNB sw avg d e₁ ∧
    strokeLengthNB sw avg d e₂ ≤ strokeLengthNB sw avg d e₁ := by
  have hB : 0 ≤ sw * avg := mul_nonneg hsw havg
  have hΔ : 0 ≤ e₂ - e₁ := sub_nonneg.mpr h12
  refine ⟨strokeWidthNB_eq sw avg d e₁, strokeLengthNB_eq sw avg d e₁, ?_, ?_⟩
  · rw [strokeWidthNB_eq, strokeWidthNB_eq]
    nlinarith [mul_nonneg (mul_nonneg hB hΔ) hd0.le]
  · rw [strokeLengthNB_eq, strokeLengthNB_eq, strokeWidthNB_eq, strokeWidthNB_eq]
    have h2e : (0 : ℚ) ≤ 2 - e₁ - e₂ := by linarith
    have key : (0 : ℚ) ≤ 2.9 + 1.8 * d * (1 - e₁ - e₂) := by
      nlinarith [mul_nonneg hd0.le h2e]
    nlinarith [mul_nonneg (mul_nonneg (mul_nonneg hB hΔ) hd0.le) key]

/-- Witness for C1 at `stroke_width = 30`, `average_stroke_size = 1`,
`dynamic_strokes = 1`, edge strengths `0 ≤ 1`. -/
theorem stroke_size_monotone_in_edges_witness :
    (0 : ℚ) ≤ 30 ∧ (0 : ℚ) ≤ 1 ∧ (0 : ℚ) < 1 ∧ (1 : ℚ) ≤ 1 ∧
    (0 : ℚ) ≤ 0 ∧ (0 : ℚ) ≤ 1 ∧ (1 : ℚ) ≤ 1 ∧
    (strokeWidthNB 30 1 1 0 = (30 * 1) * (1 - (1 - ((1 - 0) * 0.9 + 0.1)) * 1) ∧
      strokeLengthNB 30 1 1 0 = strokeWidthNB 30 1 1 0 * (1 + (1 - 0) * 2.0 * 1) ∧
      strokeWidthNB 30 1 1 1 ≤ strokeWidthNB 30 1 1 0 ∧
      strokeLengthNB 30 1 1 1 ≤ strokeLengthNB 30 1 1 0) :=
  ⟨by decide, by decide, by decide, by decide, by decide, by decide, by decide,
    stroke_size_monotone_in_edges 30 1 1 0 1 (by decide) (by decide) (by decide)
      (by decide) (by decide) (by decide) (by decide)⟩

/-- Python `math.atan2 y x`, the argument of the complex number `x + y*i`. -/
noncomputable def atan2 (y x : ℝ) : ℝ := Complex.arg ⟨x, y⟩

/-- Python `math.degrees`. -/
noncomputable def degreesOf (x : ℝ) : ℝ := x * 180 / Real.pi

/-- Base stroke orientation in degrees (src/__init__.py lines 3654-3657):
`r` and `g` are the red and green bytes of the source normal map at the
stroke's pixel. -/
noncomputable def strokeBaseAngleDeg (r g : ℕ) : ℝ :=
  let x_comp : ℝ := ((r : ℝ) / 255) * 2 - 1
  let y_comp : ℝ := ((g : ℝ) / 255) * 2 - 1
  degreesOf (atan2 y_comp x_comp)

/-- `angle_randomness` (src/__init__.py line 3658), with `u` the value of
`random.random()`. -/
noncomputable def anglePerturbation (u d : ℝ) : ℝ := (u * 2 - 1) * 90 * d

/-- `final_angle` (src/__init__.py line 3659). -/
noncomputable def strokeFinalAngle (r g : ℕ) (u d : ℝ) : ℝ :=
  strokeBaseAngleDeg r g + anglePerturbation u d

/-- C2: the base orientation equals `atan2(g*2/255 - 1, r*2/255 - 1)` in
degrees, and the perturbation added to it is bounded in magnitude by
`90 * dynamic_strokes` for `u ∈ [0, 1)` and `dynamic_strokes ≥ 0`. -/
theorem stroke_angle_spec (r g : ℕ) (u d : ℝ)
    (hu0 : 0 ≤ u) (hu1 : u < 1) (hd : 0 ≤ d) :
    strokeBaseAngleDeg r g =
      degreesOf (atan2 ((g : ℝ) * 2 / 255 - 1) ((r : ℝ) * 2 / 255 - 1)) ∧
    |strokeFinalAngle r g u d - strokeBaseAngleDeg r g| ≤ 90 * d := by
  constructor
  · show degreesOf (atan2 (((g : ℝ) / 255) * 2 - 1) (((r : ℝ) / 255) * 2 - 1)) = _
    have h1 : ((g : ℝ) / 255) * 2 - 1 = (g : ℝ) * 2 / 255 - 1 := by ring
    have h2 : ((r : ℝ) / 255) * 2 - 1 = (r : ℝ) * 2 / 255 - 1 := by ring
    rw [h1, h2]
  · have he : strokeFinalAngle r g u d - strokeBaseAngleDeg r g = (u * 2 - 1) * 90 * d := by
      unfold strokeFinalAngle anglePerturbation
      ring
    rw [he]
    have h1 : |u * 2 - 1| ≤ 1 := abs_le.mpr ⟨by linarith, by linarith⟩
    calc |(u * 2 - 1) * 90 * d| = |u * 2 - 1| * (90 * d) := by
          rw [mul_assoc, abs_mul]
          congr 1
          exact abs_of_nonneg (by positivity)
      _ ≤ 1 * (90 * d) := mul_le_mul_of_nonneg_right h1 (by positivity)
      _ = 90 * d := one_mul _

/-- Witness for C2 at `r = g = 0`, `u = 0`, `d = 1`. -/
theorem stroke_angle_spec_witness :
    (0 : ℝ) ≤ 0 ∧ (0 : ℝ) < 1 ∧ (0 : ℝ) ≤ 1 ∧
    (strokeBaseAngleDeg 0 0 =
        degreesOf (atan2 (((0 : ℕ) : ℝ) * 2 / 255 - 1) (((0 : ℕ) : ℝ) * 2 / 255 - 1)) ∧
      |strokeFinalAngle 0 0 0 1 - strokeBaseAngleDeg 0 0| ≤ 90 * 1) :=
  ⟨le_refl 0, zero_lt_one, zero_le_one,
    stroke_angle_spec 0 0 0 1 (le_refl 0) zero_lt_one zero_le_one⟩

/-- The stylized-painterly properties consumed by `generate_stroke_tasks`,
with the value ranges declared on the property group (lines 2397-2456). -/
structure GenProps where
  random_seed : Int
  randomness_intensity : ℚ
  stroke_density : ℚ
  dynamic_strokes : ℚ
  stroke_width : ℚ
  average_stroke_size : ℚ
  stroke_opacity : ℚ

/-- An implementation of Python's global `random` module: `seed` resets the
state, the drawing functions transform it.  `choice` is drawing an index into
a list of the given length. -/
structure RNGImpl (σ : Type) where
  seed : Int → σ
  randint : Int → Int → σ → Int × σ
  randFloat : σ → ℚ × σ
  choice : ℕ → σ → ℕ × σ

/-- The pixel data `generate_stroke_tasks` reads: the RGBA normal map, its
alpha mask, and PIL's FIND_EDGES output on its grayscale conversion
(`edge_data[y, x]` is `edgePx y x`). -/
structure NormalImage where
  w : ℕ
  h : ℕ
  px : Int → Int → ℕ × ℕ × ℕ × ℕ
  maskPx : Int → Int → ℕ
  edgePx : Int → Int → ℕ

/-- One entry of the task list built at src/__init__.py lines 3697-3705. -/
structure StrokeTask (β : Type) where
  brush : β
  pos : Int × Int
  angle : ℝ
  length : ℚ
  width : ℚ
  opacity : ℚ
  color : ℕ × ℕ × ℕ × ℕ

/-- The `for _ in range(num_strokes)` loop of `generate_stroke_tasks`
(src/__init__.py lines 3638-3705): `n` iterations remain, `k` is the current
iteration index (for the cancel flag read), `s` the RNG state, `acc` the task
list built so far. -/
noncomputable def strokeLoop {σ β : Type} (rng : RNGImpl σ) (props : GenProps)
    (img : NormalImage) (colorPx : Option (Int → Int → ℕ × ℕ × ℕ × ℕ))
    (brushes : List β) (b0 : β) (cancel : ℕ → Bool) :
    ℕ → ℕ → σ → List (StrokeTask β) → List (StrokeTask β)
  | 0, _, _, acc => acc
  | n + 1, k, s, acc =>
    if cancel k then acc
    else
      let xr := rng.randint 0 ((img.w : Int) - 1) s
      let xi := xr.1
      let yr := rng.randint 0 ((img.h : Int) - 1) xr.2
      let yi := yr.1
      let s2 := yr.2
      if img.maskPx xi yi < 10 then
        strokeLoop rng props img colorPx brushes b0 cancel n (k + 1) s2 acc
      else
        let rgba := img.px xi yi
        let r := rgba.1
        let g := rgba.2.1
        let b := rgba.2.2.1
        if r < 10 ∧ g < 10 ∧ b < 10 then
          strokeLoop rng props img colorPx brushes b0 cancel n (k + 1) s2 acc
        else
          let d := props.dynamic_strokes
          let ur := rng.randFloat s2
          let finalAngle := strokeFinalAngle r g (ur.1 : ℝ) (d : ℝ)
          let br := rng.randFloat ur.2
          let wls : ℚ × ℚ × σ :=
            if br.1 < 0.15 * d then
              let u3 := rng.randFloat br.2
              let size_boost := 1.5 + 2.5 * d * u3.1
              let u4 := rng.randFloat u3.2
              let elongation_boost := 1.5 + 2.0 * d * u4.1
              let fw := props.stroke_width * props.average_stroke_size * size_boost
              (fw, fw * elongation_boost, u4.2)
            else
              let e := (img.edgePx yi xi : ℚ) / 255
              (strokeWidthNB props.stroke_width props.average_stroke_size d e,
               strokeLengthNB props.stroke_width props.average_stroke_size d e,
               br.2)
          let opacityByte := (props.stroke_opacity * 255).floor.toNat
          let colres : (ℕ × ℕ × ℕ × ℕ) × σ :=
            match colorPx with
            | some cp =>
              let c := cp xi yi
              ((c.1, c.2.1, c.2.2.1, opacityByte), wls.2.2)
            | none =>
              let dr := rng.randint (-20) 20 wls.2.2
              let dg := rng.randint (-20) 20 dr.2
              let db := rng.randint (-20) 20 dg.2
              (((max 0 (min 255 ((r : Int) + dr.1))).toNat,
                (max 0 (min 255 ((g : Int) + dg.1))).toNat,
                (max 0 (min 255 ((b : Int) + db.1))).toNat,
                opacityByte), db.2)
          let bi := rng.choice brushes.length colres.2
          let task : StrokeTask β :=
            { brush := brushes.getD bi.1 b0, pos := (xi, yi), angle := finalAngle,
              length := wls.2.1, width := wls.1, opacity := props.stroke_opacity,
              color := colres.1 }
          strokeLoop rng props img colorPx brushes b0 cancel n (k + 1) bi.2
            (acc ++ [task])

/-- `generate_stroke_tasks` (src/__init__.py lines 3612-3708): seeds the RNG
with `props.random_seed` (discarding the incoming state `s0`), returns `[]`
on an empty image, otherwise runs the stroke loop for
`int(randomness_intensity * w * h / (500/9) * stroke_density)` iterations. -/
noncomputable def generate_stroke_tasks {σ β : Type} (rng : RNGImpl σ) (s0 : σ)
    (props : GenProps) (img : NormalImage)
    (colorPx : Option (Int → Int → ℕ × ℕ × ℕ × ℕ))
    (brushes : List β) (b0 : β) (cancel : ℕ → Bool) : List (StrokeTask β) :=
  let s := rng.seed props.random_seed
  if img.w = 0 ∨ img.h = 0 then []
  else
    let factor : ℚ := 500.0 / 9.0
    let num_strokes :=
      (props.randomness_intensity * (img.w : ℚ) * (img.h : ℚ) / factor *
        props.stroke_density).floor.toNat
    strokeLoop rng props img colorPx brushes b0 cancel num_strokes 0 s []

/-- C8: `generate_stroke_tasks` reseeds the generator with
`props.random_seed` on entry, so its output does not depend on the RNG state
it inherits: two runs over the same properties, images, brushes and cancel
stream produce identical task lists. -/
theorem generate_stroke_tasks_deterministic {σ β : Type} (rng : RNGImpl σ)
    (s0 s0' : σ) (props : GenProps) (img : NormalImage)
    (colorPx : Option (Int → Int → ℕ × ℕ × ℕ × ℕ))
    (brushes : List β) (b0 : β) (cancel : ℕ → Bool) :
    generate_stroke_tasks rng s0 props img colorPx brushes b0 cancel =
      generate_stroke_tasks rng s0' props img colorPx brushes b0 cancel := rfl


/-! ## `update_ramp_node` (C9)

`update_ramp_node` (src/__init__.py lines 628-667) rebuilds a ColorRamp
node's stops.  The element collection is modeled as a list in index order:
the `while` loop keeps only element 0, `elements.new(1.0)` appends one
element per entry of `final_list` (the appended element's initial colour is
irrelevant — the `idx` loop overwrites every appended element's colour, so
the model uses the primary colour as placeholder), positions are reassigned
through the clamped mixer curve when more than one element exists, and
colours are written back by index.  Colours are an opaque type `C`. -/

/-- One ColorRamp element. -/
structure RampElement (C : Type) where
  position : ℝ
  color : C

/-- The `StrokeBrushProperties` fields `update_ramp_node` reads. -/
structure RampProps (C : Type) where
  color : C
  use_secondary_color : Bool
  secondary_color : C
  additional_secondary_colors : List C
  additional_base_colors : List C
  color_mixer : ℝ
  color_mixer_offset : ℝ

/-- The position written for element `i` (src/__init__.py lines 653-661):
`max(0.0, min((i / (n_total - 1)) ** color_mixer + color_mixer_offset, 1.0))`. -/
noncomputable def mixerPosition (mix off : ℝ) (i n_total : ℕ) : ℝ :=
  max 0 (min ((((i : ℝ) / (((n_total - 1 : ℕ)) : ℝ)) ^ mix) + off) 1)

/-- The per-element position assignment of the `enumerate` loop
(src/__init__.py lines 653-661). -/
noncomputable def rampReposition {C : Type} (mix off : ℝ) (n_total : ℕ) :
    ℕ → RampElement C → RampElement C :=
  fun i el => { el with position := mixerPosition mix off i n_total }

/-- The final colour-writing loop (src/__init__.py lines 663-667): element 0
gets the primary colour, element `idx ≥ 1` gets `final_list[idx - 1]`. -/
def setElementColors {C : Type} (p : C) (cols : List C) :
    List (RampElement C) → List (RampElement C)
  | [] => []
  | f0 :: frest =>
    { f0 with color := p } ::
      List.zipWith (fun el c => { el with color := c }) frest cols

/-- `update_ramp_node` (src/__init__.py lines 628-667). -/
noncomputable def update_ramp_node {C : Type} (props : RampProps C) :
    List (RampElement C) → List (RampElement C)
  | [] => []
  | e0 :: _ =>
    let e0' : RampElement C := { e0 with color := props.color }
    let sec_list : List C :=
      if props.use_secondary_color then
        props.secondary_color :: props.additional_secondary_colors
      else []
    let base_list := props.additional_base_colors
    let final_list := base_list ++ sec_list
    let elems := e0' ::
      final_list.map (fun _ => ({ position := 1, color := props.color } : RampElement C))
    let n_total := elems.length
    let elems2 :=
      if 1 < n_total then
        elems.mapIdx (rampReposition props.color_mixer props.color_mixer_offset n_total)
      else elems
    setElementColors props.color final_list elems2

theorem mixerPosition_mem (mix off : ℝ) (i n : ℕ) :
    0 ≤ mixerPosition mix off i n ∧ mixerPosition mix off i n ≤ 1 :=
  ⟨le_max_left 0 _, max_le zero_le_one (min_le_right _ 1)⟩

theorem zipWith_setColor_map {C : Type} :
    ∀ (l1 : List (RampElement C)) (l2 : List C), l1.length = l2.length →
      (List.zipWith (fun el c => { el with color := c }) l1 l2).map
        (fun el => el.color) = l2 := by
  intro l1
  induction l1 with
  | nil =>
    intro l2 h
    rw [List.length_eq_zero.mp h.symm]
    rfl
  | cons a l ih =>
    intro l2 h
    cases l2 with
    | nil => simp at h
    | cons b bs => simp [ih bs (by simpa using h)]

theorem zipWith_setColor_pos {C : Type} :
    ∀ (l1 : List (RampElement C)) (l2 : List C) x,
      x ∈ List.zipWith (fun el c => { el with color := c }) l1 l2 →
      ∃ el ∈ l1, x.position = el.position := by
  intro l1
  induction l1 with
  | nil => intro l2 x hx; simp at hx
  | cons a l ih =>
    intro l2 x hx
    cases l2 with
    | nil => simp at hx
    | cons b bs =>
      rcases List.mem_cons.mp hx with h | h
      · exact ⟨a, List.mem_cons_self a l, by rw [h]⟩
      · obtain ⟨el, hel, hp⟩ := ih bs x h
        exact ⟨el, List.mem_cons_of_mem a hel, hp⟩

theorem mem_mapIdx_imp {α β : Type} (P : β → Prop) :
    ∀ (l : List α) (f : ℕ → α → β), (∀ i a, P (f i a)) →
      ∀ b ∈ List.mapIdx f l, P b := by
  intro l
  induction l with
  | nil => intro f _ b hb; simp at hb
  | cons a l ih =>
    intro f hf b hb
    rw [List.mapIdx_cons] at hb
    rcases List.mem_cons.mp hb with h | h
    · rw [h]; exact hf 0 a
    · exact ih _ (fun i x => hf (i + 1) x) b h

/-- C9: after `update_ramp_node`, the ramp holds exactly `1 + B + S`
elements (`B` additional base colours; `S = 1 +` additional secondary colours
when `use_secondary_color`, else `0`); element 0 carries the primary colour,
the rest carry the base-then-secondary colours in order, and every position
lies in `[0, 1]` (the input elements' positions lie in `[0, 1]`, the host's
invariant for ramp elements). -/
theorem update_ramp_node_spec {C : Type} (props : RampProps C)
    (elements : List (RampElement C)) (hne : elements ≠ [])
    (hpos : ∀ el ∈ elements, 0 ≤ el.position ∧ el.position ≤ 1) :
    (update_ramp_node props elements).map (fun el => el.color) =
      props.color :: (props.additional_base_colors ++
        (if props.use_secondary_color then
          props.secondary_color :: props.additional_secondary_colors else [])) ∧
    (update_ramp_node props elements).length =
      1 + props.additional_base_colors.length +
        (if props.use_secondary_color then
          1 + props.additional_secondary_colors.length else 0) ∧
    ∀ el ∈ update_ramp_node props elements,
      0 ≤ el.position ∧ el.position ≤ 1 := by
  obtain ⟨e0, rest, rfl⟩ := List.exists_cons_of_ne_nil hne
  have h0 : 0 ≤ e0.position ∧ e0.position ≤ 1 := hpos e0 (List.mem_cons_self e0 rest)
  by_cases hF : props.additional_base_colors = [] ∧ props.use_secondary_color = false
  · obtain ⟨hbase, husec⟩ := hF
    refine ⟨?_, ?_, ?_⟩
    · simp [update_ramp_node, hbase, husec, setElementColors]
    · simp [update_ramp_node, hbase, husec, setElementColors]
    · intro el hel
      simp [update_ramp_node, hbase, husec, setElementColors] at hel
      rw [hel]
      exact h0
  · set secList : List C :=
      (if props.use_secondary_color then
        props.secondary_color :: props.additional_secondary_colors else [])
      with hsecEq
    set finalList : List C := props.additional_base_colors ++ secList with hfin
    have hflen : 0 < finalList.length := by
      rw [hfin, List.length_append]
      cases hu : props.use_secondary_color
      · have hb : props.additional_base_colors ≠ [] := fun h => hF ⟨h, hu⟩
        have := List.length_pos.mpr hb
        omega
      · have : 0 < secList.length := by
          rw [hsecEq, hu]
          simp
        omega
    have hout : update_ramp_node props (e0 :: rest) =
        setElementColors props.color finalList
          ((({ e0 with color := props.color } : RampElement C) ::
            finalList.map (fun _ =>
              ({ position := 1, color := props.color } : RampElement C))).mapIdx
            (rampReposition props.color_mixer props.color_mixer_offset
              (finalList.length + 1))) := by
      simp only [update_ramp_node, List.length_cons, List.length_map]
      rw [if_pos (by omega : (1 : ℕ) < finalList.length + 1)]
    rw [hout, List.mapIdx_cons]
    simp only [setElementColors]
    have htail : (List.mapIdx
        (fun i => rampReposition props.color_mixer props.color_mixer_offset
          (finalList.length + 1) (i + 1))
        (finalList.map (fun _ =>
          ({ position := 1, color := props.color } : RampElement C)))).length =
        finalList.length := by
      rw [List.length_mapIdx, List.length_map]
    refine ⟨?_, ?_, ?_⟩
    · simp only [List.map_cons]
      rw [zipWith_setColor_map _ _ htail]
    · simp only [List.length_cons, List.length_zipWith, htail, min_self]
      have hsl : secList.length =
          (if props.use_secondary_color then
            1 + props.additional_secondary_colors.length else 0) := by
        rw [hsecEq]
        by_cases h : props.use_secondary_color <;> simp [h, Nat.add_comm]
      have hfl2 : finalList.length =
          props.additional_base_colors.length + secList.length := by
        rw [hfin, List.length_append]
      omega
    · intro el hel
      rcases List.mem_cons.mp hel with h | h
      · rw [h]
        exact mixerPosition_mem _ _ _ _
      · obtain ⟨el', hel', hp⟩ := zipWith_setColor_pos _ _ el h
        have hm := mem_mapIdx_imp
          (fun x : RampElement C => 0 ≤ x.position ∧ x.position ≤ 1) _ _
          (fun i a => mixerPosition_mem _ _ _ _) el' hel'
        rw [hp]
        exact hm

/-- Witness inputs for C9: one ramp element at position 0, no additional
colours, secondary colours disabled. -/
noncomputable def rampPropsW : RampProps Unit :=
  { color := (), use_secondary_color := false, secondary_color := (),
    additional_secondary_colors := [], additional_base_colors := [],
    color_mixer := 0, color_mixer_offset := 0 }

noncomputable def rampElemsW : List (RampElement Unit) := [{ position := 0, color := () }]

theorem update_ramp_node_spec_witness :
    rampElemsW ≠ [] ∧
    (∀ el ∈ rampElemsW, 0 ≤ el.position ∧ el.position ≤ 1) ∧
    ((update_ramp_node rampPropsW rampElemsW).map (fun el => el.color) =
      rampPropsW.color :: (rampPropsW.additional_base_colors ++
        (if rampPropsW.use_secondary_color then
          rampPropsW.secondary_color :: rampPropsW.additional_secondary_colors
        else [])) ∧
    (update_ramp_node rampPropsW rampElemsW).length =
      1 + rampPropsW.additional_base_colors.length +
        (if rampPropsW.use_secondary_color then
          1 + rampPropsW.additional_secondary_colors.length else 0) ∧
    ∀ el ∈ update_ramp_node rampPropsW rampElemsW,
      0 ≤ el.position ∧ el.position ≤ 1) :=
  ⟨by simp [rampElemsW],
   by
    intro el hel
    simp only [rampElemsW, List.mem_singleton] at hel
    rw [hel]
    exact ⟨le_refl 0, zero_le_one⟩,
   update_ramp_node_spec rampPropsW rampElemsW (by simp [rampElemsW])
     (by
      intro el hel
      simp only [rampElemsW, List.mem_singleton] at hel
      rw [hel]
      exact ⟨le_refl 0, zero_le_one⟩)⟩

/-! ## Density-mask wiring (C5)

`_set_density_factor_link` (src/__init__.py lines 951-982) and the
density-mask part of `update_geo_node_instance_values` (lines 1133-1179).
The Geometry Nodes group is a state record: whether the per-instance
Distribute node, the Group Input node and the "Density Factor" (or
"Density") input exist, the identifiers of the Group Input output sockets,
the identifiers of the sockets currently linked into the density input, and
that input's default value. -/

/-- The node-group state `_set_density_factor_link` manipulates. -/
structure DensityNG where
  distExists : Bool
  groupInExists : Bool
  densityInputExists : Bool
  groupInputOutputs : List String
  linksToDensity : List String
  densityDefault : ℚ

/-- The secondary-stroke properties the density-mask code reads. -/
structure SecondaryStrokeProps where
  density_mask_socket_identifier : String
  use_density_mask : Bool
  density_vertex_group : String

/-- The primary stroke object: its type and vertex-group names. -/
structure PrimaryObject where
  isMesh : Bool
  vertexGroups : List String

/-- The `mod[key_use]` / `mod[key_name]` custom keys on the modifier. -/
structure GeoModifierState where
  useAttr : Bool
  attrName : Option String

/-- `_set_density_factor_link` (src/__init__.py lines 951-982): remove every
link into the density input, then either re-link from the recorded Group
Input socket (when connecting and the socket exists) or reset the default
to 1.0. -/
def _set_density_factor_link (ng : DensityNG) (identRecorded : String)
    (connect : Bool) : DensityNG :=
  if identRecorded = "" then ng
  else if ¬ (ng.distExists = true ∧ ng.groupInExists = true) then ng
  else if ng.densityInputExists = false then ng
  else
    let ng1 := { ng with linksToDensity := [] }
    if connect then
      if identRecorded ∈ ng1.groupInputOutputs then
        { ng1 with linksToDensity := [identRecorded] }
      else ng1
    else { ng1 with densityDefault := 1 }

/-- The density-mask block of `update_geo_node_instance_values`
(src/__init__.py lines 1133-1179): validate the vertex group, set the
modifier's attribute keys, and connect or disconnect the density link. -/
def update_geo_node_instance_values_density (ss : SecondaryStrokeProps)
    (obj : PrimaryObject) (m : GeoModifierState) (ng : DensityNG) :
    GeoModifierState × DensityNG :=
  if ss.density_mask_socket_identifier = "" then (m, ng)
  else
    let vg_is_valid : Bool :=
      if ss.use_density_mask = true ∧ ss.density_vertex_group ≠ "" then
        decide (obj.isMesh = true ∧ ss.density_vertex_group ∈ obj.vertexGroups)
      else false
    let m' : GeoModifierState :=
      if vg_is_valid then
        { useAttr := true, attrName := some ss.density_vertex_group }
      else
        { useAttr := false, attrName := none }
    let ng' := _set_density_factor_link ng ss.density_mask_socket_identifier
      (ss.use_density_mask && vg_is_valid)
    (m', ng')

/-- C5: with a recorded density-mask socket identifier and the instance nodes
present, enabling the density mask with a vertex group that exists on the
mesh primary object makes the modifier read that attribute and links the
matching Group Input socket into the density input; in every other
configuration all links into that input are removed, its default becomes 1.0
(full density), and the modifier's attribute flag is cleared. -/
theorem density_mask_link_spec (ss : SecondaryStrokeProps) (obj : PrimaryObject)
    (m : GeoModifierState) (ng : DensityNG)
    (hid : ss.density_mask_socket_identifier ≠ "")
    (hdist : ng.distExists = true) (hgin : ng.groupInExists = true)
    (hinp : ng.densityInputExists = true)
    (hsock : ss.density_mask_socket_identifier ∈ ng.groupInputOutputs) :
    (ss.use_density_mask = true → ss.density_vertex_group ≠ "" →
      obj.isMesh = true → ss.density_vertex_group ∈ obj.vertexGroups →
      ((update_geo_node_instance_values_density ss obj m ng).1.useAttr = true ∧
        (update_geo_node_instance_values_density ss obj m ng).1.attrName =
          some ss.density_vertex_group ∧
        (update_geo_node_instance_values_density ss obj m ng).2.linksToDensity =
          [ss.density_mask_socket_identifier])) ∧
    (¬ (ss.use_density_mask = true ∧ ss.density_vertex_group ≠ "" ∧
        obj.isMesh = true ∧ ss.density_vertex_group ∈ obj.vertexGroups) →
      ((update_geo_node_instance_values_density ss obj m ng).2.linksToDensity = [] ∧
        (update_geo_node_instance_values_density ss obj m ng).2.densityDefault = 1 ∧
        (update_geo_node_instance_values_density ss obj m ng).1.useAttr = false)) := by
  constructor
  · intro hu hv hm hvg
    simp [update_geo_node_instance_values_density, _set_density_factor_link,
      hid, hu, hv, hm, hvg, hdist, hgin, hinp, hsock]
  · intro hno
    have hA : ¬ (ss.use_density_mask = true ∧
        (ss.use_density_mask = true ∧ ¬ ss.density_vertex_group = "") ∧
        obj.isMesh = true ∧ ss.density_vertex_group ∈ obj.vertexGroups) := by
      rintro ⟨h1, ⟨h1b, h2⟩, h3, h4⟩
      exact hno ⟨h1, h2, h3, h4⟩
    have hB : ¬ ((ss.use_density_mask = true ∧ ¬ ss.density_vertex_group = "") ∧
        obj.isMesh = true ∧ ss.density_vertex_group ∈ obj.vertexGroups) := by
      rintro ⟨⟨h1, h2⟩, h3, h4⟩
      exact hno ⟨h1, h2, h3, h4⟩
    simp [update_geo_node_instance_values_density, _set_density_factor_link,
      hid, hdist, hgin, hinp, hA, hB]

/-- Witness for C5: density mask enabled with an existing vertex group on a
mesh object (first branch), checked at a concrete state. -/
theorem density_mask_link_spec_witness :
    (let ss : SecondaryStrokeProps :=
      { density_mask_socket_identifier := "Socket_7", use_density_mask := true,
        density_vertex_group := "Mask" }
     let obj : PrimaryObject := { isMesh := true, vertexGroups := ["Mask"] }
     let m : GeoModifierState := { useAttr := false, attrName := none }
     let ng : DensityNG :=
      { distExists := true, groupInExists := true, densityInputExists := true,
        groupInputOutputs := ["Socket_7"], linksToDensity := [],
        densityDefault := 0 }
     ss.density_mask_socket_identifier ≠ "" ∧
     (update_geo_node_instance_values_density ss obj m ng).1.useAttr = true ∧
     (update_geo_node_instance_values_density ss obj m ng).1.attrName =
       some ss.density_vertex_group ∧
     (update_geo_node_instance_values_density ss obj m ng).2.linksToDensity =
       [ss.density_mask_socket_identifier]) := by
  refine ⟨by decide, ?_⟩
  have h := (density_mask_link_spec
    { density_mask_socket_identifier := "Socket_7", use_density_mask := true,
      density_vertex_group := "Mask" }
    { isMesh := true, vertexGroups := ["Mask"] }
    { useAttr := false, attrName := none }
    { distExists := true, groupInExists := true, densityInputExists := true,
      groupInputOutputs := ["Socket_7"], linksToDensity := [],
      densityDefault := 0 }
    (by decide) rfl rfl rfl (by decide)).1 rfl (by decide) rfl (by decide)
  exact h

/-! ## Auto-bake of a missing source normal map (C6)

`PainterlyEffectOperator.invoke` (src/__init__.py lines 3387-3402): for each
material it follows Normal input → NORMAL_MAP node → its Color input →
TEX_IMAGE node → image to record the source normal map; when the run is not
a colour-only pass and no source normal map was found, it invokes
`bpy.ops.texture.auto_bake` and records `bpy.data.images.get(f"{obj.name}_NORM_MAP")`.
The bake itself is a host operation; the image datablock collection after the
bake enters as the list `imagesAfterBake`. -/

/-- A shader node reachable from a Principled BSDF input, as far as the
extraction at lines 3380-3392 inspects it. -/
inductive ShaderLink where
  | texImage (image : Option String) : ShaderLink
  | normalMap (colorLink : Option ShaderLink) : ShaderLink
  | otherNode : ShaderLink

/-- The two Principled BSDF inputs `invoke` inspects (`none` = not linked). -/
structure PrincipledInputs where
  baseColorLink : Option ShaderLink
  normalLink : Option ShaderLink

/-- A material's node tree (`none` = no Principled BSDF node). -/
structure MatNodeTree where
  principled : Option PrincipledInputs

/-- The source-normal-map extraction (src/__init__.py lines 3387-3392):
`some img` exactly when the Normal input is linked from a NORMAL_MAP node
whose Color input is linked from a TEX_IMAGE node carrying an image. -/
def sourceNormalImage (nt : MatNodeTree) : Option String :=
  match nt.principled with
  | none => none
  | some bsdf =>
    match bsdf.normalLink with
    | some (ShaderLink.normalMap (some (ShaderLink.texImage (some img)))) => some img
    | _ => none

/-- The name `f"{obj_ref.name}_NORM_MAP"` (src/__init__.py line 3402). -/
def normMapName (objName : String) : String := objName ++ "_NORM_MAP"

/-- `bpy.data.images.get(name)`. -/
def imagesGet (images : List String) (n : String) : Option String :=
  if n ∈ images then some n else none

/-- The per-material normal-source step of `invoke` (src/__init__.py lines
3387-3402): returns the recorded source normal image and whether auto-bake
was invoked. -/
def invokeNormalSetup (objName : String) (only_color_pass : Bool)
    (nt : MatNodeTree) (imagesAfterBake : List String) : Option String × Bool :=
  let recorded := sourceNormalImage nt
  if only_color_pass = false ∧ recorded = none then
    (imagesGet imagesAfterBake (normMapName objName), true)
  else (recorded, false)

/-- C6: when the material has no source normal-map image wired into the
Principled BSDF Normal input and the run is not a colour-only pass, `invoke`
calls the host auto-bake and records the image named `<object name>_NORM_MAP`
(provided the bake produced it). -/
theorem invoke_auto_bakes_missing_normal (objName : String) (nt : MatNodeTree)
    (images : List String) (hnone : sourceNormalImage nt = none) :
    (invokeNormalSetup objName false nt images).2 = true ∧
    (normMapName objName ∈ images →
      (invokeNormalSetup objName false nt images).1 = some (normMapName objName)) := by
  constructor
  · simp [invokeNormalSetup, hnone]
  · intro hmem
    simp [invokeNormalSetup, hnone, imagesGet, hmem]

/-- Witness for C6: a material whose Principled BSDF has no Normal link, an
object named "Cube", and an image collection holding "Cube_NORM_MAP". -/
theorem invoke_auto_bakes_missing_normal_witness :
    sourceNormalImage { principled := some { baseColorLink := none, normalLink := none } } = none ∧
    ((invokeNormalSetup (String.mk ['C', 'u', 'b', 'e']) false
        { principled := some { baseColorLink := none, normalLink := none } }
        [normMapName (String.mk ['C', 'u', 'b', 'e'])]).2 = true ∧
      (normMapName (String.mk ['C', 'u', 'b', 'e']) ∈
          [normMapName (String.mk ['C', 'u', 'b', 'e'])] →
        (invokeNormalSetup (String.mk ['C', 'u', 'b', 'e']) false
            { principled := some { baseColorLink := none, normalLink := none } }
            [normMapName (String.mk ['C', 'u', 'b', 'e'])]).1 =
          some (normMapName (String.mk ['C', 'u', 'b', 'e'])))) :=
  ⟨rfl, invoke_auto_bakes_missing_normal (String.mk ['C', 'u', 'b', 'e'])
    { principled := some { baseColorLink := none, normalLink := none } }
    [normMapName (String.mk ['C', 'u', 'b', 'e'])] rfl⟩

/-! ## Modal operator / worker pool coordination (C7)

`PainterlyEffectOperator.modal` (src/__init__.py lines 3291-3322),
`_cleanup` (lines 3272-3289), `_advance_state` (lines 3324-3334) and the
future submission of `setup_for_next_job` (lines 3502-3509).  The operator's
mutable fields and the window-manager flags are one state record; each
future is represented by its `done()` flag, frozen at the instant the modal
event fires.  `finalize_tile` is recorded as a counter increment. -/

inductive ModalEvent where
  | esc : ModalEvent
  | timer : ModalEvent
  | otherEvent : ModalEvent
deriving DecidableEq

inductive ModalResult where
  | cancelled : ModalResult
  | finished : ModalResult
  | passThrough : ModalResult
deriving DecidableEq

/-- Operator + window-manager state read by `modal`. -/
structure ModalState where
  cancelRequested : Bool
  executorAlive : Bool
  futuresDone : Option (List Bool)
  finalizedTiles : Nat
  currentMaterialIndex : Nat
  materialCount : Nat
  currentPassColor : Bool
  onlyColorPass : Bool
  enableColorPass : Bool
  processing : Bool

/-- `_cleanup` (src/__init__.py lines 3272-3289): removes the timer, shuts
the executor down (`shutdown(wait=False, cancel_futures=True)`), clears the
futures and ends processing. -/
def _cleanup (s : ModalState) : ModalState :=
  { s with executorAlive := false, futuresDone := none, processing := false }

/-- `_advance_state` (src/__init__.py lines 3324-3334). -/
def _advance_state (s : ModalState) : ModalState :=
  if s.currentPassColor = true ∧ s.onlyColorPass = false then
    { s with currentPassColor := false }
  else
    let s1 := { s with currentMaterialIndex := s.currentMaterialIndex + 1 }
    if s1.currentMaterialIndex < s1.materialCount then
      { s1 with currentPassColor := s1.enableColorPass }
    else s1

/-- The future list built by `setup_for_next_job` (src/__init__.py lines
3503-3509): one submitted (not yet done) future per stroke task. -/
def submitFutures {τ : Type} (tasks : List τ) : List Bool :=
  tasks.map (fun _ => false)

/-- `modal` (src/__init__.py lines 3291-3322).  `nextJobTasks` is the number
of stroke tasks the next `setup_for_next_job` call generates. -/
def modal (s : ModalState) (ev : ModalEvent) (nextJobTasks : Nat) :
    ModalState × ModalResult :=
  if s.cancelRequested then (_cleanup s, ModalResult.cancelled)
  else if ev = ModalEvent.esc then (_cleanup s, ModalResult.cancelled)
  else if ev = ModalEvent.timer then
    match s.futuresDone, s.executorAlive with
    | some futs, true =>
      let done_count := (futs.filter (fun b => b)).length
      if done_count = futs.length then
        let s1 := { s with finalizedTiles := s.finalizedTiles + 1 }
        let s2 := _advance_state s1
        if s2.materialCount ≤ s2.currentMaterialIndex then
          (_cleanup s2, ModalResult.finished)
        else
          ({ s2 with futuresDone := some (List.replicate nextJobTasks false) },
            ModalResult.passThrough)
      else (s, ModalResult.passThrough)
    | _, _ => (_cleanup s, ModalResult.finished)
  else (s, ModalResult.passThrough)

theorem filter_true_length_all (l : List Bool)
    (h : (l.filter (fun b => b)).length = l.length) : ∀ b ∈ l, b = true := by
  induction l with
  | nil => intro b hb; simp at hb
  | cons a t ih =>
    intro b hb
    by_cases ha : a = true
    · subst ha
      simp only [List.filter_cons_of_pos, List.length_cons] at h
      rcases List.mem_cons.mp hb with rfl | hbt
      · rfl
      · exact ih (by omega) b hbt
    · exfalso
      have hlen := List.length_filter_le (fun b => b) t
      simp [List.filter_cons, ha] at h
      omega

/-- C7: `setup_for_next_job` submits one pool task per generated stroke; the
modal loop finalizes the composited tile only on a TIMER event, with no
cancel pending, when every submitted future reports done; and a pending
cancel request or an ESC event yields CANCELLED, shuts the executor down and
finalizes nothing. -/
theorem modal_loop_spec {τ : Type} (s : ModalState) (ev : ModalEvent)
    (n : Nat) (tasks : List τ) :
    (submitFutures tasks).length = tasks.length ∧
    ((modal s ev n).1.finalizedTiles ≠ s.finalizedTiles →
      ev = ModalEvent.timer ∧ s.cancelRequested = false ∧
        ∃ futs, s.futuresDone = some futs ∧ ∀ b ∈ futs, b = true) ∧
    (s.cancelRequested = true ∨ ev = ModalEvent.esc →
      (modal s ev n).2 = ModalResult.cancelled ∧
      (modal s ev n).1.executorAlive = false ∧
      (modal s ev n).1.finalizedTiles = s.finalizedTiles) := by
  refine ⟨by simp [submitFutures], ?_, ?_⟩
  · intro hne
    by_cases hc : s.cancelRequested = true
    · exact absurd (by simp [modal, hc, _cleanup]) hne
    · have hc' : s.cancelRequested = false := by
        cases hcc : s.cancelRequested
        · rfl
        · exact absurd hcc hc
      by_cases hesc : ev = ModalEvent.esc
      · exact absurd (by simp [modal, hc', hesc, _cleanup]) hne
      · by_cases htimer : ev = ModalEvent.timer
        · subst htimer
          cases hfut : s.futuresDone with
          | none =>
            exact absurd (by simp [modal, hc', hesc, hfut, _cleanup]) hne
          | some futs =>
            cases hex : s.executorAlive
            · exact absurd (by simp [modal, hc', hesc, hfut, hex, _cleanup]) hne
            · by_cases hdone : (futs.filter (fun b => b)).length = futs.length
              · exact ⟨rfl, hc', futs, rfl, filter_true_length_all futs hdone⟩
              · exact absurd (by simp [modal, hc', hesc, hfut, hex, hdone]) hne
        · exact absurd (by simp [modal, hc', hesc, htimer]) hne
  · intro h
    by_cases hc : s.cancelRequested = true
    · refine ⟨by simp [modal, hc], by simp [modal, hc, _cleanup], by simp [modal, hc, _cleanup]⟩
    · have hc' : s.cancelRequested = false := by
        cases hcc : s.cancelRequested
        · rfl
        · exact absurd hcc hc
      rcases h with h | hesc
      · exact absurd h hc
      · refine ⟨by simp [modal, hc', hesc], by simp [modal, hc', hesc, _cleanup],
          by simp [modal, hc', hesc, _cleanup]⟩

/-- Witness states for C7: one with a pending cancel request, one on a TIMER
event with its single future done. -/
def modalStateW1 : ModalState :=
  { cancelRequested := true, executorAlive := true, futuresDone := some [false],
    finalizedTiles := 0, currentMaterialIndex := 0, materialCount := 1,
    currentPassColor := false, onlyColorPass := false, enableColorPass := false,
    processing := true }

def modalStateW2 : ModalState :=
  { cancelRequested := false, executorAlive := true, futuresDone := some [true],
    finalizedTiles := 0, currentMaterialIndex := 0, materialCount := 1,
    currentPassColor := false, onlyColorPass := false, enableColorPass := false,
    processing := true }

theorem modal_loop_spec_witness :
    (modalStateW1.cancelRequested = true ∨ ModalEvent.timer = ModalEvent.esc) ∧
    ((modal modalStateW1 ModalEvent.timer 0).2 = ModalResult.cancelled ∧
      (modal modalStateW1 ModalEvent.timer 0).1.executorAlive = false ∧
      (modal modalStateW1 ModalEvent.timer 0).1.finalizedTiles =
        modalStateW1.finalizedTiles) ∧
    (modal modalStateW2 ModalEvent.timer 0).1.finalizedTiles ≠
      modalStateW2.finalizedTiles ∧
    (ModalEvent.timer = ModalEvent.timer ∧ modalStateW2.cancelRequested = false ∧
      ∃ futs, modalStateW2.futuresDone = some futs ∧ ∀ b ∈ futs, b = true) :=
  ⟨Or.inl rfl,
    (modal_loop_spec modalStateW1 ModalEvent.timer 0 ([] : List Unit)).2.2 (Or.inl rfl),
    by decide,
    (modal_loop_spec modalStateW2 ModalEvent.timer 0 ([] : List Unit)).2.1 (by decide)⟩

end Painterly
